import Mathlib

/-!
Verification of the ShiftBuffer specification (spec.md §3, §4.1, §8) for the
Nuclex Native Framework.

The repository ships the ShiftBuffer's unit tests
(`src/Nuclex.Support.Native/Tests/Collections/ShiftBufferTest.cpp`) but not the
implementation header `Nuclex/Support/Collections/ShiftBuffer.h` itself.  The
operations below are therefore modelled from the spec's append/extract
algorithms, with one systematic caveat: on the exception paths the spec's §4.1
policy text contradicts the repository's own tests
(`ExceptionDuringWriteCausesNoLeaks`, `ExceptionDuringShoveCausesNoLeaks`,
`ExceptionDuringCapacityChangeCausesNoLeaks`), and there the tests — being the
only actual code — are taken as the authority.  Each definition's doc comment
states which source it follows.

The element type is modelled after the test's `TestItem`: an item is the id of
its shared `TestItemStats` record, and a "world" maps ids to their counters.
-/

namespace NuclexShiftBuffer

/-- Translated from `TestItemStats` in ShiftBufferTest.cpp (lines 38-55):
per-item counters for copies, moves, destructions and assignments, plus the
flags that arm the copy/move constructor to throw. -/
structure TestItemStats where
  CopyCount : Nat := 0
  MoveCount : Nat := 0
  DestroyCount : Nat := 0
  OverwriteCount : Nat := 0
  ThrowOnCopy : Bool := false
  ThrowOnMove : Bool := false
deriving DecidableEq, Repr

/-- The heap of `TestItemStats` records, indexed by item id.  A `TestItem` is
represented by the id of the stats record it shares (`std::shared_ptr` in the
test); copying or moving an item produces another item with the same id.  The
test's `makeStats(count)` corresponds to `freshWorld count`. -/
def World : Type := List TestItemStats

/-- A world of `n` fresh stats records (all counters zero, no throw flag
armed) — the state `makeStats` produces in the test. -/
def freshWorld (n : Nat) : World := List.replicate n {}

/-- Read the stats record of id `i` (a default record past the end). -/
def getStat : World → Nat → TestItemStats
  | [], _ => {}
  | st :: _, 0 => st
  | _ :: rest, Nat.succ i => getStat rest i

/-- Replace the stats record of id `i` (no effect past the end). -/
def setStat : World → Nat → TestItemStats → World
  | [], _, _ => []
  | _ :: rest, 0, st => st :: rest
  | x :: rest, Nat.succ i, st => x :: setStat rest i st

/-- Apply `f` to the stats record of id `i`. -/
def modifyStat (w : World) (i : Nat) (f : TestItemStats → TestItemStats) : World :=
  setStat w i (f (getStat w i))

/-- Translated from `TestItem`'s copy constructor (ShiftBufferTest.cpp
lines 68-74): `++CopyCount`, then throw if `ThrowOnCopy`.  The counter is
incremented even when the construction then fails. -/
def markCopied (w : World) (s : Nat) : World :=
  modifyStat w s (fun st => { st with CopyCount := st.CopyCount + 1 })

/-- Translated from `TestItem`'s move constructor (lines 78-84):
`++MoveCount`, then throw if `ThrowOnMove`. -/
def markMoved (w : World) (s : Nat) : World :=
  modifyStat w s (fun st => { st with MoveCount := st.MoveCount + 1 })

/-- Translated from `TestItem`'s destructor (lines 87-89): `++DestroyCount`. -/
def markDestroyed (w : World) (s : Nat) : World :=
  modifyStat w s (fun st => { st with DestroyCount := st.DestroyCount + 1 })

/-- Translated from the first line of `TestItem`'s assignment operators
(lines 94-115): `++OverwriteCount` on the stats record the assigned-to slot
held before the assignment. -/
def markOverwritten (w : World) (s : Nat) : World :=
  modifyStat w s (fun st => { st with OverwriteCount := st.OverwriteCount + 1 })

/-- Whether constructing from item `s` throws: the move constructor consults
`ThrowOnMove`, the copy constructor `ThrowOnCopy`. -/
def ctorThrows (useMove : Bool) (w : World) (s : Nat) : Bool :=
  if useMove then (getStat w s).ThrowOnMove else (getStat w s).ThrowOnCopy

/-- Counter effect of constructing from item `s` (move or copy). -/
def markConstructed (useMove : Bool) (w : World) (s : Nat) : World :=
  if useMove then markMoved w s else markCopied w s

/-- Running total of element constructions and destructions the buffer itself
has performed, used to state the leak-freedom invariant of spec §8 item 2. -/
structure Tally where
  constructions : Nat := 0
  destructions : Nat := 0
deriving DecidableEq, Repr

/-- Modelled from the spec (§3 data model): the ShiftBuffer implementation
header is not under src/, so the state is taken from the spec's data model.
`items` is the live window `[head, head + count)` as the list of item ids it
holds, oldest first; slots outside it are raw and carry no state. -/
structure ShiftBuffer where
  capacity : Nat
  head : Nat
  items : List Nat
deriving DecidableEq, Repr

/-- Modelled from the spec (§4.1 construct): an empty buffer whose capacity is
at least the hint and positive. -/
def ShiftBuffer.new (initialCapacity : Nat) : ShiftBuffer :=
  ⟨max initialCapacity 1, 0, []⟩

/-- Number of live elements (spec §4.1 `Count()`). -/
def ShiftBuffer.Count (b : ShiftBuffer) : Nat := b.items.length

/-- Number of reserved slots (spec §4.1 `GetCapacity()`). -/
def ShiftBuffer.GetCapacity (b : ShiftBuffer) : Nat := b.capacity

/-- Result of one construction loop: final world and tally, the items
successfully constructed (in order), and whether a constructor threw. -/
structure AppendState where
  world : World
  tally : Tally
  done : List Nat
  threw : Bool

/-- Modelled from the spec (§4.1 append, "construct the n new elements") with
the exception behaviour of ShiftBufferTest.cpp lines 519-599: the elements are
constructed one at a time into the tail and the count grows with each one, so
when a constructor throws, the already-appended elements simply stay in the
buffer and nothing is destroyed. -/
def AppendLoop (useMove : Bool) (w : World) (t : Tally) (done : List Nat)
    (src : List Nat) : AppendState :=
  match src with
  | [] => ⟨w, t, done, false⟩
  | s :: rest =>
    let w1 := markConstructed useMove w s
    if ctorThrows useMove w s then ⟨w1, t, done, true⟩
    else AppendLoop useMove w1 ⟨t.constructions + 1, t.destructions⟩ (done ++ [s]) rest

/-- Result of the in-place compaction loop. -/
structure CompactState where
  world : World
  tally : Tally
  moved : List Nat
  remaining : List Nat
  threw : Bool

/-- Modelled from the spec (§4.1 case 2): shift the live window down to offset
0 by move-constructing each element into its lower slot and destroying the
original, element by element.  On a throw the loop stops; `remaining` then
still starts with the element whose move failed (its original is still
alive). -/
def CompactLoop (w : World) (t : Tally) (moved : List Nat) (rest : List Nat) :
    CompactState :=
  match rest with
  | [] => ⟨w, t, moved, [], false⟩
  | s :: srest =>
    let w1 := markMoved w s
    if (getStat w s).ThrowOnMove then ⟨w1, t, moved, s :: srest, true⟩
    else CompactLoop (markDestroyed w1 s) ⟨t.constructions + 1, t.destructions + 1⟩
      (moved ++ [s]) srest

/-- Destroy every element of `l` in turn (the buffer's destructor body, and
the wholesale-cleanup step of the exception paths). -/
def destroyAll (w : World) (t : Tally) (l : List Nat) : World × Tally :=
  match l with
  | [] => (w, t)
  | s :: rest => destroyAll (markDestroyed w s) ⟨t.constructions, t.destructions + 1⟩ rest

/-- Result of an externally visible buffer operation. -/
structure OpResult where
  world : World
  tally : Tally
  buf : ShiftBuffer
  threw : Bool

/-- Modelled from the spec (§4.1 append algorithm, shared by Write and Shove),
with the exception paths following the repository's tests where they contradict
the spec's §4.1 policy text:

* case 1 (`n ≤ free_tail`): construct the new elements into the tail; on a
  throw the already-appended elements are kept and nothing is destroyed
  (ShiftBufferTest.cpp lines 519-599: every `DestroyCount` is still 0 right
  after the failed call, and the destructor later destroys exactly the
  appended ones).
* case 2 (fits after compaction): compact, then append as case 1.  If a
  compaction move throws, all copies made so far and all remaining originals
  are destroyed and the buffer is left empty (spec §4.1 compaction path).
* case 3 (reallocation): allocate `max(capacity * 2, count + n)` slots,
  move-construct the live window across, destroy all originals, then append as
  case 1.  If a move throws, all originals are still destroyed but the
  elements already moved into the new storage are kept, so the buffer ends
  with `count = k` (ShiftBufferTest.cpp lines 467-515: after the exception
  every item has `DestroyCount` 1 and destroying the buffer destroys the `k`
  moved items a second time — not `count = 0` as §4.1 claims). -/
def ShiftBuffer.Append (useMove : Bool) (w : World) (t : Tally) (b : ShiftBuffer)
    (src : List Nat) : OpResult :=
  let n := src.length
  if n ≤ b.capacity - b.head - b.items.length then
    let r := AppendLoop useMove w t [] src
    ⟨r.world, r.tally, { b with items := b.items ++ r.done }, r.threw⟩
  else if n ≤ b.capacity - b.items.length then
    let c := CompactLoop w t [] b.items
    if c.threw then
      let p := destroyAll c.world c.tally c.moved
      let q := destroyAll p.1 p.2 c.remaining
      ⟨q.1, q.2, { b with head := 0, items := [] }, true⟩
    else
      let r := AppendLoop useMove c.world c.tally [] src
      ⟨r.world, r.tally, { b with head := 0, items := c.moved ++ r.done }, r.threw⟩
  else
    let newCapacity := max (b.capacity * 2) (b.items.length + n)
    let m := AppendLoop true w t [] b.items
    let p := destroyAll m.world m.tally b.items
    if m.threw then
      ⟨p.1, p.2, ⟨newCapacity, 0, m.done⟩, true⟩
    else
      let r := AppendLoop useMove p.1 p.2 [] src
      ⟨r.world, r.tally, ⟨newCapacity, 0, m.done ++ r.done⟩, r.threw⟩

/-- Spec §4.1 `Write(src, n)`: append by copy construction. -/
def ShiftBuffer.Write (w : World) (t : Tally) (b : ShiftBuffer) (src : List Nat) :
    OpResult :=
  ShiftBuffer.Append false w t b src

/-- Spec §4.1 `Shove(src, n)`: append by move construction; the source items
remain the caller's to destroy. -/
def ShiftBuffer.Shove (w : World) (t : Tally) (b : ShiftBuffer) (src : List Nat) :
    OpResult :=
  ShiftBuffer.Append true w t b src

/-- Result of the extract loop: final world and tally, the destination slots
(each holding the id of the stats record it now shares), the part of the live
window not yet consumed, and whether a move-assign threw. -/
structure ReadState where
  world : World
  tally : Tally
  dst : List Nat
  remaining : List Nat
  threw : Bool

/-- Modelled from the spec (§4.1 extract algorithm): for each output slot in
order, move-assign from the head slot into it, then destroy the head slot.
The move-assign itself follows `TestItem::operator=(TestItem &&)`
(ShiftBufferTest.cpp lines 107-115): it first bumps the destination's
`OverwriteCount`, re-points the destination at the source's stats and bumps
`MoveCount`, and only then may throw — so on a throw the destination slot has
already been touched while the head slot is not destroyed and stays in the
buffer.  If `n` exceeds the available items or slots the loop stops early. -/
def ReadLoop (w : World) (t : Tally) (done : List Nat) (dst : List Nat)
    (items : List Nat) (n : Nat) : ReadState :=
  match n, dst, items with
  | Nat.succ m, d :: drest, s :: srest =>
    let w1 := markMoved (markOverwritten w d) s
    if (getStat w s).ThrowOnMove then ⟨w1, t, done ++ s :: drest, s :: srest, true⟩
    else ReadLoop (markDestroyed w1 s) ⟨t.constructions, t.destructions + 1⟩
      (done ++ [s]) drest srest m
  | _, _, _ => ⟨w, t, done ++ dst, items, false⟩

/-- Result of `Read`: like `OpResult` but also carrying the destination. -/
structure ReadResult where
  world : World
  tally : Tally
  dst : List Nat
  buf : ShiftBuffer
  threw : Bool

/-- Modelled from the spec (§4.1 `Read(dst, n)` and its exception policy):
run the extract loop; `head` advances and `count` shrinks by the number of
slots actually destroyed, whether or not a move-assign threw. -/
def ShiftBuffer.Read (w : World) (t : Tally) (b : ShiftBuffer) (dst : List Nat)
    (n : Nat) : ReadResult :=
  let r := ReadLoop w t [] dst b.items n
  ⟨r.world, r.tally, r.dst,
    { b with head := b.head + (b.items.length - r.remaining.length),
             items := r.remaining }, r.threw⟩

/-- Modelled from the spec (§3 lifecycle, §4.1 destruct): destroying the
buffer destroys exactly the live window. -/
def ShiftBuffer.destruct (w : World) (t : Tally) (b : ShiftBuffer) : World × Tally :=
  destroyAll w t b.items

/-- One buffer operation of a lifetime trace (spec §8 invariant 1/2). -/
inductive BufOp where
  | write (src : List Nat)
  | shove (src : List Nat)
  | read (dst : List Nat) (n : Nat)

/-- State threaded through a lifetime trace. -/
structure TraceState where
  world : World
  tally : Tally
  buf : ShiftBuffer

/-- Apply one operation; a thrown exception is observed by the caller but the
trace continues from the post-cleanup state (as the tests do with
`EXPECT_THROW`). -/
def applyOp (st : TraceState) (op : BufOp) : TraceState :=
  match op with
  | .write src =>
    let r := ShiftBuffer.Append false st.world st.tally st.buf src
    ⟨r.world, r.tally, r.buf⟩
  | .shove src =>
    let r := ShiftBuffer.Append true st.world st.tally st.buf src
    ⟨r.world, r.tally, r.buf⟩
  | .read dst n =>
    let r := ShiftBuffer.Read st.world st.tally st.buf dst n
    ⟨r.world, r.tally, r.buf⟩

/-- Run a whole lifetime trace. -/
def runOps (st : TraceState) (ops : List BufOp) : TraceState :=
  ops.foldl applyOp st

/-- Modelled from the spec (§3 data model), value level: the buffer as seen
through a trivially copyable element type such as the byte tests use — only
the contents of the live window matter. -/
structure PlainBuffer (α : Type) where
  capacity : Nat
  head : Nat
  items : List α
deriving DecidableEq

/-- Value-level construction (spec §4.1 construct). -/
def PlainBuffer.new (α : Type) (c : Nat) : PlainBuffer α := ⟨max c 1, 0, []⟩

/-- Value-level `Count()`. -/
def PlainBuffer.Count (b : PlainBuffer α) : Nat := b.items.length

/-- Modelled from the spec (§4.1 append algorithm), value level: whichever of
the three cases runs, the new elements end up appended to the live window. -/
def PlainBuffer.Write (b : PlainBuffer α) (src : List α) : PlainBuffer α :=
  if src.length ≤ b.capacity - b.head - b.items.length then
    { b with items := b.items ++ src }
  else if src.length ≤ b.capacity - b.items.length then
    { b with head := 0, items := b.items ++ src }
  else
    ⟨max (b.capacity * 2) (b.items.length + src.length), 0, b.items ++ src⟩

/-- Value-level `Shove`: identical to `Write` at the value level. -/
def PlainBuffer.Shove (b : PlainBuffer α) (src : List α) : PlainBuffer α :=
  b.Write src

/-- Modelled from the spec (§4.1 extract algorithm), value level: the oldest
`n` elements leave the buffer in order and `head` advances by as many. -/
def PlainBuffer.Read (b : PlainBuffer α) (n : Nat) : List α × PlainBuffer α :=
  (b.items.take n,
   { b with head := b.head + min n b.items.length, items := b.items.drop n })

/-- Modelled from the spec (§3 lifecycle, copy): an independent buffer with
the same live window contents, head reset to 0. -/
def PlainBuffer.copyOf (b : PlainBuffer α) : PlainBuffer α :=
  ⟨b.capacity, 0, b.items⟩

/-- One value-level operation of a producer/consumer trace. -/
inductive PlainOp (α : Type) where
  | write (src : List α)
  | shove (src : List α)
  | read (n : Nat)

/-- Apply one value-level operation, accumulating everything Read returns. -/
def plainStep (p : PlainBuffer α × List α) (op : PlainOp α) :
    PlainBuffer α × List α :=
  match op with
  | .write src => (p.1.Write src, p.2)
  | .shove src => (p.1.Shove src, p.2)
  | .read n =>
    let r := p.1.Read n
    (r.2, p.2 ++ r.1)

/-- Run a value-level trace from buffer `b`, collecting all Read output. -/
def runPlain (b : PlainBuffer α) (ops : List (PlainOp α)) :
    PlainBuffer α × List α :=
  ops.foldl plainStep (b, [])

/-- Everything a trace delivers to Write or Shove, in delivery order. -/
def opInputs : List (PlainOp α) → List α
  | [] => []
  | PlainOp.write src :: rest => src ++ opInputs rest
  | PlainOp.shove src :: rest => src ++ opInputs rest
  | PlainOp.read _ :: rest => opInputs rest

/-! Basic lemmas about the stats heap. -/

theorem length_setStat (w : World) (i : Nat) (st : TestItemStats) :
    (setStat w i st).length = w.length := by
  induction w generalizing i with
  | nil => rfl
  | cons x rest ih =>
    cases i with
    | zero => rfl
    | succ i => simpa [setStat] using ih i

theorem setStat_of_le (w : World) (i : Nat) (st : TestItemStats)
    (h : w.length ≤ i) : setStat w i st = w := by
  induction w generalizing i with
  | nil => rfl
  | cons x rest ih =>
    cases i with
    | zero => exact absurd h (by simp)
    | succ i => simp [setStat, ih i (by simpa using h)]

theorem getStat_setStat_self (w : World) (i : Nat) (st : TestItemStats)
    (h : i < w.length) : getStat (setStat w i st) i = st := by
  induction w generalizing i with
  | nil => exact absurd h (by simp)
  | cons x rest ih =>
    cases i with
    | zero => rfl
    | succ i => simpa [setStat, getStat] using ih i (by simpa using h)

theorem getStat_setStat_ne (w : World) (i j : Nat) (st : TestItemStats)
    (h : j ≠ i) : getStat (setStat w i st) j = getStat w j := by
  induction w generalizing i j with
  | nil => rfl
  | cons x rest ih =>
    cases i with
    | zero =>
      cases j with
      | zero => exact absurd rfl h
      | succ j => rfl
    | succ i =>
      cases j with
      | zero => rfl
      | succ j => simpa [setStat, getStat] using ih i j (by omega)

theorem length_modifyStat (w : World) (i : Nat) (f : TestItemStats → TestItemStats) :
    (modifyStat w i f).length = w.length :=
  length_setStat w i (f (getStat w i))

theorem getStat_modifyStat_self (w : World) (i : Nat)
    (f : TestItemStats → TestItemStats) (h : i < w.length) :
    getStat (modifyStat w i f) i = f (getStat w i) :=
  getStat_setStat_self w i (f (getStat w i)) h

theorem getStat_modifyStat_ne (w : World) (i j : Nat)
    (f : TestItemStats → TestItemStats) (h : j ≠ i) :
    getStat (modifyStat w i f) j = getStat w j :=
  getStat_setStat_ne w i j (f (getStat w i)) h

theorem modifyStat_of_le (w : World) (i : Nat) (f : TestItemStats → TestItemStats)
    (h : w.length ≤ i) : modifyStat w i f = w :=
  setStat_of_le w i (f (getStat w i)) h

/-- Any projection a single-record modification leaves alone is left alone at
every id. -/
theorem proj_modifyStat {β : Type} (w : World) (i : Nat)
    (f : TestItemStats → TestItemStats) (j : Nat) (g : TestItemStats → β)
    (hf : ∀ st, g (f st) = g st) :
    g (getStat (modifyStat w i f) j) = g (getStat w j) := by
  rcases Nat.lt_or_ge i w.length with hi | hi
  · rcases eq_or_ne j i with rfl | hj
    · rw [getStat_modifyStat_self w j f hi, hf]
    · rw [getStat_modifyStat_ne w i j f hj]
  · rw [modifyStat_of_le w i f hi]

/-- A counter a single-record modification bumps by one rises by one exactly
at the modified id (when that id is in range). -/
theorem count_modifyStat {w : World} {i : Nat}
    (f : TestItemStats → TestItemStats) (j : Nat) (g : TestItemStats → Nat)
    (hf : ∀ st, g (f st) = g st + 1) (hi : i < w.length) :
    g (getStat (modifyStat w i f) j) = g (getStat w j) + (if j = i then 1 else 0) := by
  rcases eq_or_ne j i with rfl | hj
  · rw [getStat_modifyStat_self w j f hi, hf, if_pos rfl]
  · rw [getStat_modifyStat_ne w i j f hj, if_neg hj, Nat.add_zero]

/-! Effect of each single-item event on the stats heap, field by field. -/

theorem length_markCopied (w : World) (s : Nat) : (markCopied w s).length = w.length :=
  length_modifyStat w s _

theorem length_markMoved (w : World) (s : Nat) : (markMoved w s).length = w.length :=
  length_modifyStat w s _

theorem length_markDestroyed (w : World) (s : Nat) :
    (markDestroyed w s).length = w.length :=
  length_modifyStat w s _

theorem length_markOverwritten (w : World) (s : Nat) :
    (markOverwritten w s).length = w.length :=
  length_modifyStat w s _

theorem CopyCount_markCopied (w : World) (s j : Nat) (h : s < w.length) :
    (getStat (markCopied w s) j).CopyCount
      = (getStat w j).CopyCount + (if j = s then 1 else 0) := by
  unfold markCopied; exact count_modifyStat _ j (fun st => st.CopyCount) (fun st => rfl) h

theorem MoveCount_markCopied (w : World) (s j : Nat) :
    (getStat (markCopied w s) j).MoveCount = (getStat w j).MoveCount := by
  unfold markCopied; exact proj_modifyStat w s _ j (fun st => st.MoveCount) (fun st => rfl)

theorem DestroyCount_markCopied (w : World) (s j : Nat) :
    (getStat (markCopied w s) j).DestroyCount = (getStat w j).DestroyCount := by
  unfold markCopied; exact proj_modifyStat w s _ j (fun st => st.DestroyCount) (fun st => rfl)

theorem OverwriteCount_markCopied (w : World) (s j : Nat) :
    (getStat (markCopied w s) j).OverwriteCount = (getStat w j).OverwriteCount := by
  unfold markCopied; exact proj_modifyStat w s _ j (fun st => st.OverwriteCount) (fun st => rfl)

theorem ThrowOnCopy_markCopied (w : World) (s j : Nat) :
    (getStat (markCopied w s) j).ThrowOnCopy = (getStat w j).ThrowOnCopy := by
  unfold markCopied; exact proj_modifyStat w s _ j (fun st => st.ThrowOnCopy) (fun st => rfl)

theorem ThrowOnMove_markCopied (w : World) (s j : Nat) :
    (getStat (markCopied w s) j).ThrowOnMove = (getStat w j).ThrowOnMove := by
  unfold markCopied; exact proj_modifyStat w s _ j (fun st => st.ThrowOnMove) (fun st => rfl)

theorem MoveCount_markMoved (w : World) (s j : Nat) (h : s < w.length) :
    (getStat (markMoved w s) j).MoveCount
      = (getStat w j).MoveCount + (if j = s then 1 else 0) := by
  unfold markMoved; exact count_modifyStat _ j (fun st => st.MoveCount) (fun st => rfl) h

theorem CopyCount_markMoved (w : World) (s j : Nat) :
    (getStat (markMoved w s) j).CopyCount = (getStat w j).CopyCount := by
  unfold markMoved; exact proj_modifyStat w s _ j (fun st => st.CopyCount) (fun st => rfl)

theorem DestroyCount_markMoved (w : World) (s j : Nat) :
    (getStat (markMoved w s) j).DestroyCount = (getStat w j).DestroyCount := by
  unfold markMoved; exact proj_modifyStat w s _ j (fun st => st.DestroyCount) (fun st => rfl)

theorem OverwriteCount_markMoved (w : World) (s j : Nat) :
    (getStat (markMoved w s) j).OverwriteCount = (getStat w j).OverwriteCount := by
  unfold markMoved; exact proj_modifyStat w s _ j (fun st => st.OverwriteCount) (fun st => rfl)

theorem ThrowOnCopy_markMoved (w : World) (s j : Nat) :
    (getStat (markMoved w s) j).ThrowOnCopy = (getStat w j).ThrowOnCopy := by
  unfold markMoved; exact proj_modifyStat w s _ j (fun st => st.ThrowOnCopy) (fun st => rfl)

theorem ThrowOnMove_markMoved (w : World) (s j : Nat) :
    (getStat (markMoved w s) j).ThrowOnMove = (getStat w j).ThrowOnMove := by
  unfold markMoved; exact proj_modifyStat w s _ j (fun st => st.ThrowOnMove) (fun st => rfl)

theorem DestroyCount_markDestroyed (w : World) (s j : Nat) (h : s < w.length) :
    (getStat (markDestroyed w s) j).DestroyCount
      = (getStat w j).DestroyCount + (if j = s then 1 else 0) := by
  unfold markDestroyed; exact count_modifyStat _ j (fun st => st.DestroyCount) (fun st => rfl) h

theorem CopyCount_markDestroyed (w : World) (s j : Nat) :
    (getStat (markDestroyed w s) j).CopyCount = (getStat w j).CopyCount := by
  unfold markDestroyed; exact proj_modifyStat w s _ j (fun st => st.CopyCount) (fun st => rfl)

theorem MoveCount_markDestroyed (w : World) (s j : Nat) :
    (getStat (markDestroyed w s) j).MoveCount = (getStat w j).MoveCount := by
  unfold markDestroyed; exact proj_modifyStat w s _ j (fun st => st.MoveCount) (fun st => rfl)

theorem OverwriteCount_markDestroyed (w : World) (s j : Nat) :
    (getStat (markDestroyed w s) j).OverwriteCount = (getStat w j).OverwriteCount := by
  unfold markDestroyed; exact proj_modifyStat w s _ j (fun st => st.OverwriteCount) (fun st => rfl)

theorem ThrowOnCopy_markDestroyed (w : World) (s j : Nat) :
    (getStat (markDestroyed w s) j).ThrowOnCopy = (getStat w j).ThrowOnCopy := by
  unfold markDestroyed; exact proj_modifyStat w s _ j (fun st => st.ThrowOnCopy) (fun st => rfl)

theorem ThrowOnMove_markDestroyed (w : World) (s j : Nat) :
    (getStat (markDestroyed w s) j).ThrowOnMove = (getStat w j).ThrowOnMove := by
  unfold markDestroyed; exact proj_modifyStat w s _ j (fun st => st.ThrowOnMove) (fun st => rfl)

theorem OverwriteCount_markOverwritten (w : World) (s j : Nat) (h : s < w.length) :
    (getStat (markOverwritten w s) j).OverwriteCount
      = (getStat w j).OverwriteCount + (if j = s then 1 else 0) := by
  unfold markOverwritten
  exact count_modifyStat _ j (fun st => st.OverwriteCount) (fun st => rfl) h

theorem CopyCount_markOverwritten (w : World) (s j : Nat) :
    (getStat (markOverwritten w s) j).CopyCount = (getStat w j).CopyCount := by
  unfold markOverwritten; exact proj_modifyStat w s _ j (fun st => st.CopyCount) (fun st => rfl)

theorem MoveCount_markOverwritten (w : World) (s j : Nat) :
    (getStat (markOverwritten w s) j).MoveCount = (getStat w j).MoveCount := by
  unfold markOverwritten; exact proj_modifyStat w s _ j (fun st => st.MoveCount) (fun st => rfl)

theorem DestroyCount_markOverwritten (w : World) (s j : Nat) :
    (getStat (markOverwritten w s) j).DestroyCount = (getStat w j).DestroyCount := by
  unfold markOverwritten
  exact proj_modifyStat w s _ j (fun st => st.DestroyCount) (fun st => rfl)

theorem ThrowOnCopy_markOverwritten (w : World) (s j : Nat) :
    (getStat (markOverwritten w s) j).ThrowOnCopy = (getStat w j).ThrowOnCopy := by
  unfold markOverwritten
  exact proj_modifyStat w s _ j (fun st => st.ThrowOnCopy) (fun st => rfl)

theorem ThrowOnMove_markOverwritten (w : World) (s j : Nat) :
    (getStat (markOverwritten w s) j).ThrowOnMove = (getStat w j).ThrowOnMove := by
  unfold markOverwritten
  exact proj_modifyStat w s _ j (fun st => st.ThrowOnMove) (fun st => rfl)

theorem length_markConstructed (u : Bool) (w : World) (s : Nat) :
    (markConstructed u w s).length = w.length := by
  cases u <;> simp [markConstructed, length_markCopied, length_markMoved]

theorem DestroyCount_markConstructed (u : Bool) (w : World) (s j : Nat) :
    (getStat (markConstructed u w s) j).DestroyCount = (getStat w j).DestroyCount := by
  cases u <;> simp [markConstructed, DestroyCount_markCopied, DestroyCount_markMoved]

theorem OverwriteCount_markConstructed (u : Bool) (w : World) (s j : Nat) :
    (getStat (markConstructed u w s) j).OverwriteCount
      = (getStat w j).OverwriteCount := by
  cases u <;> simp [markConstructed, OverwriteCount_markCopied, OverwriteCount_markMoved]

theorem CopyCount_markConstructed (u : Bool) (w : World) (s j : Nat) (h : s < w.length) :
    (getStat (markConstructed u w s) j).CopyCount
      = (getStat w j).CopyCount + (if u then 0 else if j = s then 1 else 0) := by
  cases u <;> simp [markConstructed, CopyCount_markCopied w s j h, CopyCount_markMoved]

theorem MoveCount_markConstructed (u : Bool) (w : World) (s j : Nat) (h : s < w.length) :
    (getStat (markConstructed u w s) j).MoveCount
      = (getStat w j).MoveCount + (if u then if j = s then 1 else 0 else 0) := by
  cases u <;> simp [markConstructed, MoveCount_markMoved w s j h, MoveCount_markCopied]

theorem ctorThrows_markConstructed (u v : Bool) (w : World) (s x : Nat) :
    ctorThrows u (markConstructed v w s) x = ctorThrows u w x := by
  cases u <;> cases v <;>
    simp [ctorThrows, markConstructed, ThrowOnCopy_markCopied, ThrowOnCopy_markMoved,
      ThrowOnMove_markCopied, ThrowOnMove_markMoved]

theorem ctorThrows_markDestroyed (u : Bool) (w : World) (s x : Nat) :
    ctorThrows u (markDestroyed w s) x = ctorThrows u w x := by
  cases u <;> simp [ctorThrows, ThrowOnCopy_markDestroyed, ThrowOnMove_markDestroyed]

theorem ctorThrows_markOverwritten (u : Bool) (w : World) (s x : Nat) :
    ctorThrows u (markOverwritten w s) x = ctorThrows u w x := by
  cases u <;> simp [ctorThrows, ThrowOnCopy_markOverwritten, ThrowOnMove_markOverwritten]

/-- Number of occurrences of id `j` in a list of item ids: how many of the
listed items share the stats record `j`. -/
def occs : List Nat → Nat → Nat
  | [], _ => 0
  | s :: rest, j => occs rest j + (if j = s then 1 else 0)

theorem occs_append (l1 l2 : List Nat) (j : Nat) :
    occs (l1 ++ l2) j = occs l1 j + occs l2 j := by
  induction l1 with
  | nil => simp [occs]
  | cons s rest ih => simp [occs, ih]; omega

theorem occs_of_not_mem {l : List Nat} {j : Nat} (h : j ∉ l) : occs l j = 0 := by
  induction l with
  | nil => rfl
  | cons s rest ih =>
    simp only [List.mem_cons, not_or] at h
    simp [occs, ih h.2, if_neg h.1]

theorem occs_of_nodup_mem {l : List Nat} {j : Nat} (hnd : l.Nodup) (h : j ∈ l) :
    occs l j = 1 := by
  induction l with
  | nil => simp at h
  | cons s rest ih =>
    rcases List.nodup_cons.mp hnd with ⟨hs, hrest⟩
    rcases List.mem_cons.mp h with rfl | hmem
    · simp [occs, occs_of_not_mem hs]
    · have hne : j ≠ s := fun hjs => hs (hjs ▸ hmem)
      simp [occs, ih hrest hmem, if_neg hne]

/-! The cumulative effect of the construction loops on the stats heap. -/

/-- World state after constructing (by copy or by move, per `useMove`) from
each listed item in turn. -/
def afterCtors (u : Bool) (w : World) : List Nat → World
  | [] => w
  | s :: rest => afterCtors u (markConstructed u w s) rest

theorem length_afterCtors (u : Bool) (w : World) (l : List Nat) :
    (afterCtors u w l).length = w.length := by
  induction l generalizing w with
  | nil => rfl
  | cons s rest ih => rw [afterCtors, ih, length_markConstructed]

theorem DestroyCount_afterCtors (u : Bool) (w : World) (l : List Nat) (j : Nat) :
    (getStat (afterCtors u w l) j).DestroyCount = (getStat w j).DestroyCount := by
  induction l generalizing w with
  | nil => rfl
  | cons s rest ih => rw [afterCtors, ih, DestroyCount_markConstructed]

theorem OverwriteCount_afterCtors (u : Bool) (w : World) (l : List Nat) (j : Nat) :
    (getStat (afterCtors u w l) j).OverwriteCount = (getStat w j).OverwriteCount := by
  induction l generalizing w with
  | nil => rfl
  | cons s rest ih => rw [afterCtors, ih, OverwriteCount_markConstructed]

theorem ctorThrows_afterCtors (u v : Bool) (w : World) (l : List Nat) (x : Nat) :
    ctorThrows u (afterCtors v w l) x = ctorThrows u w x := by
  induction l generalizing w with
  | nil => rfl
  | cons s rest ih => rw [afterCtors, ih, ctorThrows_markConstructed]

theorem CopyCount_afterCtors (u : Bool) (w : World) (l : List Nat) (j : Nat)
    (hv : ∀ x ∈ l, x < w.length) :
    (getStat (afterCtors u w l) j).CopyCount
      = (getStat w j).CopyCount + (if u then 0 else occs l j) := by
  induction l generalizing w with
  | nil => cases u <;> simp [afterCtors, occs]
  | cons s rest ih =>
    rw [afterCtors, ih _ (fun x hx => by
      rw [length_markConstructed]; exact hv x (List.mem_cons_of_mem s hx))]
    rw [CopyCount_markConstructed u w s j (hv s (List.mem_cons_self s rest))]
    cases u <;> simp [occs] <;> omega

theorem MoveCount_afterCtors (u : Bool) (w : World) (l : List Nat) (j : Nat)
    (hv : ∀ x ∈ l, x < w.length) :
    (getStat (afterCtors u w l) j).MoveCount
      = (getStat w j).MoveCount + (if u then occs l j else 0) := by
  induction l generalizing w with
  | nil => cases u <;> simp [afterCtors, occs]
  | cons s rest ih =>
    rw [afterCtors, ih _ (fun x hx => by
      rw [length_markConstructed]; exact hv x (List.mem_cons_of_mem s hx))]
    rw [MoveCount_markConstructed u w s j (hv s (List.mem_cons_self s rest))]
    cases u <;> simp [occs] <;> omega

/-! Effect of `destroyAll` on the stats heap and the tally. -/

theorem destroyAll_world (w : World) (t : Tally) (l : List Nat) :
    ∀ t2, (destroyAll w t l).1 = (destroyAll w t2 l).1 := by
  induction l generalizing w t with
  | nil => intro t2; rfl
  | cons s rest ih => intro t2; rw [destroyAll, destroyAll]; exact ih _ _ _

theorem destroyAll_tally (w : World) (t : Tally) (l : List Nat) :
    (destroyAll w t l).2 = ⟨t.constructions, t.destructions + l.length⟩ := by
  induction l generalizing w t with
  | nil => simp [destroyAll]
  | cons s rest ih => rw [destroyAll, ih]; simp; omega

theorem length_destroyAll (w : World) (t : Tally) (l : List Nat) :
    (destroyAll w t l).1.length = w.length := by
  induction l generalizing w t with
  | nil => rfl
  | cons s rest ih => rw [destroyAll, ih, length_markDestroyed]

theorem DestroyCount_destroyAll (w : World) (t : Tally) (l : List Nat) (j : Nat)
    (hv : ∀ x ∈ l, x < w.length) :
    (getStat (destroyAll w t l).1 j).DestroyCount
      = (getStat w j).DestroyCount + occs l j := by
  induction l generalizing w t with
  | nil => simp [destroyAll, occs]
  | cons s rest ih =>
    rw [destroyAll, ih _ _ (fun x hx => by
      rw [length_markDestroyed]; exact hv x (List.mem_cons_of_mem s hx))]
    rw [DestroyCount_markDestroyed w s j (hv s (List.mem_cons_self s rest))]
    simp [occs]; omega

theorem CopyCount_destroyAll (w : World) (t : Tally) (l : List Nat) (j : Nat) :
    (getStat (destroyAll w t l).1 j).CopyCount = (getStat w j).CopyCount := by
  induction l generalizing w t with
  | nil => rfl
  | cons s rest ih => rw [destroyAll, ih, CopyCount_markDestroyed]

theorem MoveCount_destroyAll (w : World) (t : Tally) (l : List Nat) (j : Nat) :
    (getStat (destroyAll w t l).1 j).MoveCount = (getStat w j).MoveCount := by
  induction l generalizing w t with
  | nil => rfl
  | cons s rest ih => rw [destroyAll, ih, MoveCount_markDestroyed]

theorem OverwriteCount_destroyAll (w : World) (t : Tally) (l : List Nat) (j : Nat) :
    (getStat (destroyAll w t l).1 j).OverwriteCount = (getStat w j).OverwriteCount := by
  induction l generalizing w t with
  | nil => rfl
  | cons s rest ih => rw [destroyAll, ih, OverwriteCount_markDestroyed]

/-! Closed forms for the append construction loop. -/

theorem AppendLoop_nothrow (u : Bool) (w : World) (t : Tally) (acc src : List Nat)
    (hs : ∀ x ∈ src, ctorThrows u w x = false) :
    AppendLoop u w t acc src
      = ⟨afterCtors u w src, ⟨t.constructions + src.length, t.destructions⟩,
         acc ++ src, false⟩ := by
  induction src generalizing w t acc with
  | nil => simp [AppendLoop, afterCtors]
  | cons s rest ih =>
    rw [AppendLoop]
    simp only [hs s (List.mem_cons_self s rest), if_false, Bool.false_eq_true]
    rw [ih _ _ _ (fun x hx => by
      rw [ctorThrows_markConstructed]; exact hs x (List.mem_cons_of_mem s hx))]
    simp [afterCtors, List.length_cons]
    omega

theorem AppendLoop_throw (u : Bool) (w : World) (t : Tally) (acc pre post : List Nat)
    (s : Nat) (hpre : ∀ x ∈ pre, ctorThrows u w x = false)
    (hs : ctorThrows u w s = true) :
    AppendLoop u w t acc (pre ++ s :: post)
      = ⟨markConstructed u (afterCtors u w pre) s,
         ⟨t.constructions + pre.length, t.destructions⟩, acc ++ pre, true⟩ := by
  induction pre generalizing w t acc with
  | nil =>
    rw [List.nil_append, AppendLoop]
    simp [afterCtors, hs]
  | cons p rest ih =>
    rw [List.cons_append, AppendLoop]
    simp only [hpre p (List.mem_cons_self p rest), if_false, Bool.false_eq_true]
    rw [ih _ _ _ (fun x hx => by
      rw [ctorThrows_markConstructed]; exact hpre x (List.mem_cons_of_mem p hx)) (by
      rw [ctorThrows_markConstructed]; exact hs)]
    simp [afterCtors, List.length_cons]
    omega

theorem AppendLoop_tally (u : Bool) (w : World) (t : Tally) (acc src : List Nat) :
    (AppendLoop u w t acc src).tally.constructions + acc.length
        = t.constructions + (AppendLoop u w t acc src).done.length ∧
      (AppendLoop u w t acc src).tally.destructions = t.destructions := by
  induction src generalizing w t acc with
  | nil => simp [AppendLoop]
  | cons s rest ih =>
    rw [AppendLoop]
    by_cases h : ctorThrows u w s
    · simp [h]
    · simp only [h, if_false, Bool.false_eq_true]
      rcases ih (markConstructed u w s) ⟨t.constructions + 1, t.destructions⟩ (acc ++ [s])
        with ⟨h1, h2⟩
      refine ⟨?_, h2⟩
      simp only [List.length_append, List.length_cons, List.length_nil] at h1 ⊢
      omega

theorem AppendLoop_done_length (u : Bool) (w : World) (t : Tally) (acc src : List Nat)
    (h : (AppendLoop u w t acc src).threw = false) :
    (AppendLoop u w t acc src).done.length = acc.length + src.length := by
  induction src generalizing w t acc with
  | nil => simp [AppendLoop]
  | cons s rest ih =>
    rw [AppendLoop] at h ⊢
    by_cases hc : ctorThrows u w s
    · simp [hc] at h
    · simp only [hc, if_false, Bool.false_eq_true] at h ⊢
      rw [ih _ _ _ h]
      simp
      omega

/-! Closed forms for the compaction loop. -/

theorem CompactLoop_tally (w : World) (t : Tally) (moved rest : List Nat) :
    (CompactLoop w t moved rest).tally.constructions + moved.length
        = t.constructions + (CompactLoop w t moved rest).moved.length ∧
      (CompactLoop w t moved rest).tally.destructions + moved.length
        = t.destructions + (CompactLoop w t moved rest).moved.length ∧
      (CompactLoop w t moved rest).moved.length
          + (CompactLoop w t moved rest).remaining.length
        = moved.length + rest.length := by
  induction rest generalizing w t moved with
  | nil => simp [CompactLoop]
  | cons s srest ih =>
    rw [CompactLoop]
    by_cases h : (getStat w s).ThrowOnMove
    · simp [h]
    · simp only [h, if_false, Bool.false_eq_true]
      rcases ih (markDestroyed (markMoved w s) s)
        ⟨t.constructions + 1, t.destructions + 1⟩ (moved ++ [s]) with ⟨h1, h2, h3⟩
      simp only [List.length_append, List.length_cons, List.length_nil] at h1 h2 h3 ⊢
      omega

theorem CompactLoop_nothrow_remaining (w : World) (t : Tally) (moved rest : List Nat)
    (h : (CompactLoop w t moved rest).threw = false) :
    (CompactLoop w t moved rest).remaining = [] := by
  induction rest generalizing w t moved with
  | nil => rfl
  | cons s srest ih =>
    rw [CompactLoop] at h ⊢
    by_cases hc : (getStat w s).ThrowOnMove
    · simp [hc] at h
    · simp only [hc, if_false, Bool.false_eq_true] at h ⊢
      exact ih _ _ _ h

/-! Closed form for the extract loop. -/

/-- World state after fully extracting a sequence of (destination slot, head
item) pairs: each step overwrites the destination, moves from the head item,
and destroys the head slot. -/
def afterExtract (w : World) : List (Nat × Nat) → World
  | [] => w
  | p :: rest => afterExtract (markDestroyed (markMoved (markOverwritten w p.1) p.2) p.2) rest

theorem length_afterExtract (w : World) (ps : List (Nat × Nat)) :
    (afterExtract w ps).length = w.length := by
  induction ps generalizing w with
  | nil => rfl
  | cons p rest ih =>
    rw [afterExtract, ih, length_markDestroyed, length_markMoved, length_markOverwritten]

theorem CopyCount_afterExtract (w : World) (ps : List (Nat × Nat)) (j : Nat) :
    (getStat (afterExtract w ps) j).CopyCount = (getStat w j).CopyCount := by
  induction ps generalizing w with
  | nil => rfl
  | cons p rest ih =>
    rw [afterExtract, ih, CopyCount_markDestroyed, CopyCount_markMoved,
      CopyCount_markOverwritten]

theorem DestroyCount_afterExtract (w : World) (ps : List (Nat × Nat)) (j : Nat)
    (hv : ∀ p ∈ ps, p.2 < w.length) :
    (getStat (afterExtract w ps) j).DestroyCount
      = (getStat w j).DestroyCount + occs (ps.map Prod.snd) j := by
  induction ps generalizing w with
  | nil => simp [afterExtract, occs]
  | cons p rest ih =>
    rw [afterExtract, ih _ (fun q hq => by
      rw [length_markDestroyed, length_markMoved, length_markOverwritten]
      exact hv q (List.mem_cons_of_mem p hq))]
    rw [DestroyCount_markDestroyed _ _ _ (by
      rw [length_markMoved, length_markOverwritten]
      exact hv p (List.mem_cons_self p rest))]
    rw [DestroyCount_markMoved, DestroyCount_markOverwritten]
    simp [occs]
    omega

theorem MoveCount_afterExtract (w : World) (ps : List (Nat × Nat)) (j : Nat)
    (hv : ∀ p ∈ ps, p.2 < w.length) :
    (getStat (afterExtract w ps) j).MoveCount
      = (getStat w j).MoveCount + occs (ps.map Prod.snd) j := by
  induction ps generalizing w with
  | nil => simp [afterExtract, occs]
  | cons p rest ih =>
    rw [afterExtract, ih _ (fun q hq => by
      rw [length_markDestroyed, length_markMoved, length_markOverwritten]
      exact hv q (List.mem_cons_of_mem p hq))]
    rw [MoveCount_markDestroyed]
    rw [MoveCount_markMoved _ _ _ (by
      rw [length_markOverwritten]; exact hv p (List.mem_cons_self p rest))]
    rw [MoveCount_markOverwritten]
    simp [occs]
    omega

theorem OverwriteCount_afterExtract (w : World) (ps : List (Nat × Nat)) (j : Nat)
    (hv : ∀ p ∈ ps, p.1 < w.length) :
    (getStat (afterExtract w ps) j).OverwriteCount
      = (getStat w j).OverwriteCount + occs (ps.map Prod.fst) j := by
  induction ps generalizing w with
  | nil => simp [afterExtract, occs]
  | cons p rest ih =>
    rw [afterExtract, ih _ (fun q hq => by
      rw [length_markDestroyed, length_markMoved, length_markOverwritten]
      exact hv q (List.mem_cons_of_mem p hq))]
    rw [OverwriteCount_markDestroyed, OverwriteCount_markMoved]
    rw [OverwriteCount_markOverwritten _ _ _ (hv p (List.mem_cons_self p rest))]
    simp [occs]
    omega

theorem ThrowOnMove_afterExtract (w : World) (ps : List (Nat × Nat)) (j : Nat) :
    (getStat (afterExtract w ps) j).ThrowOnMove = (getStat w j).ThrowOnMove := by
  induction ps generalizing w with
  | nil => rfl
  | cons p rest ih =>
    rw [afterExtract, ih, ThrowOnMove_markDestroyed, ThrowOnMove_markMoved,
      ThrowOnMove_markOverwritten]

theorem ReadLoop_cons_ok (w : World) (t : Tally) (done : List Nat) (d : Nat)
    (drest : List Nat) (s : Nat) (srest : List Nat) (n : Nat)
    (h : (getStat w s).ThrowOnMove = false) :
    ReadLoop w t done (d :: drest) (s :: srest) (n + 1)
      = ReadLoop (markDestroyed (markMoved (markOverwritten w d) s) s)
          ⟨t.constructions, t.destructions + 1⟩ (done ++ [s]) drest srest n := by
  rw [ReadLoop]
  simp [h]

theorem ReadLoop_cons_throw (w : World) (t : Tally) (done : List Nat) (d : Nat)
    (drest : List Nat) (s : Nat) (srest : List Nat) (n : Nat)
    (h : (getStat w s).ThrowOnMove = true) :
    ReadLoop w t done (d :: drest) (s :: srest) (n + 1)
      = ⟨markMoved (markOverwritten w d) s, t, done ++ s :: drest, s :: srest, true⟩ := by
  rw [ReadLoop]
  simp [h]

theorem ReadLoop_throw (w : World) (t : Tally) (done : List Nat)
    (dpre dpost pre rest : List Nat) (d s m : Nat)
    (hlen : dpre.length = pre.length)
    (hpre : ∀ x ∈ pre, (getStat w x).ThrowOnMove = false)
    (hs : (getStat w s).ThrowOnMove = true) :
    ReadLoop w t done (dpre ++ d :: dpost) (pre ++ s :: rest) (pre.length + m + 1)
      = ⟨markMoved (markOverwritten (afterExtract w (dpre.zip pre)) d) s,
         ⟨t.constructions, t.destructions + pre.length⟩,
         done ++ pre ++ s :: dpost, s :: rest, true⟩ := by
  induction pre generalizing dpre w t done with
  | nil =>
    have hd : dpre = [] := List.length_eq_zero.mp hlen
    subst hd
    simp only [List.nil_append, List.length_nil, Nat.zero_add, List.zip_nil_right,
      afterExtract]
    rw [ReadLoop_cons_throw w t done d dpost s rest m hs]
    simp
  | cons p ptail ih =>
    rcases dpre with _ | ⟨dq, dtail⟩
    · exact absurd hlen (by simp)
    have hlen2 : dtail.length = ptail.length := by simpa using hlen
    have hstep : (p :: ptail).length + m + 1 = (ptail.length + m + 1) + 1 := by
      simp; omega
    rw [hstep, List.cons_append, List.cons_append,
      ReadLoop_cons_ok w t done dq (dtail ++ d :: dpost) p (ptail ++ s :: rest)
        (ptail.length + m + 1) (hpre p (List.mem_cons_self p ptail))]
    rw [ih (markDestroyed (markMoved (markOverwritten w dq) p) p)
      ⟨t.constructions, t.destructions + 1⟩ (done ++ [p]) dtail hlen2
      (fun x hx => by
        rw [ThrowOnMove_markDestroyed, ThrowOnMove_markMoved, ThrowOnMove_markOverwritten]
        exact hpre x (List.mem_cons_of_mem p hx))
      (by
        rw [ThrowOnMove_markDestroyed, ThrowOnMove_markMoved, ThrowOnMove_markOverwritten]
        exact hs)]
    simp [afterExtract, List.append_assoc]
    exact ⟨rfl, by omega⟩

theorem ReadLoop_tally (w : World) (t : Tally) (done dst items : List Nat) (n : Nat) :
    (ReadLoop w t done dst items n).tally.constructions = t.constructions ∧
      (ReadLoop w t done dst items n).tally.destructions
          + (ReadLoop w t done dst items n).remaining.length
        = t.destructions + items.length := by
  induction items generalizing w t done dst n with
  | nil =>
    cases n with
    | zero => simp [ReadLoop]
    | succ m => cases dst <;> simp [ReadLoop]
  | cons s srest ih =>
    cases n with
    | zero => simp [ReadLoop]
    | succ m =>
      cases dst with
      | nil => simp [ReadLoop]
      | cons d drest =>
        by_cases h : (getStat w s).ThrowOnMove
        · rw [ReadLoop_cons_throw w t done d drest s srest m h]
          simp
        · rw [ReadLoop_cons_ok w t done d drest s srest m
            (Bool.not_eq_true _ ▸ (by simpa using h))]
          rcases ih (markDestroyed (markMoved (markOverwritten w d) s) s)
            ⟨t.constructions, t.destructions + 1⟩ (done ++ [s]) drest m with ⟨h1, h2⟩
          refine ⟨h1, ?_⟩
          simp only [List.length_cons] at h2 ⊢
          omega

/-! Closed forms for the externally visible operations. -/

theorem ctorThrows_true (w : World) (x : Nat) :
    ctorThrows true w x = (getStat w x).ThrowOnMove := rfl

theorem ctorThrows_false (w : World) (x : Nat) :
    ctorThrows false w x = (getStat w x).ThrowOnCopy := rfl

theorem Append_fits_nothrow (u : Bool) (w : World) (t : Tally) (b : ShiftBuffer)
    (src : List Nat) (hfit : src.length ≤ b.capacity - b.head - b.items.length)
    (hs : ∀ x ∈ src, ctorThrows u w x = false) :
    ShiftBuffer.Append u w t b src
      = ⟨afterCtors u w src, ⟨t.constructions + src.length, t.destructions⟩,
         { b with items := b.items ++ src }, false⟩ := by
  simp only [ShiftBuffer.Append]
  rw [if_pos hfit, AppendLoop_nothrow u w t [] src hs]
  simp

theorem Append_fits_throw (u : Bool) (w : World) (t : Tally) (b : ShiftBuffer)
    (pre post : List Nat) (s : Nat)
    (hfit : (pre ++ s :: post).length ≤ b.capacity - b.head - b.items.length)
    (hpre : ∀ x ∈ pre, ctorThrows u w x = false)
    (hs : ctorThrows u w s = true) :
    ShiftBuffer.Append u w t b (pre ++ s :: post)
      = ⟨markConstructed u (afterCtors u w pre) s,
         ⟨t.constructions + pre.length, t.destructions⟩,
         { b with items := b.items ++ pre }, true⟩ := by
  simp only [ShiftBuffer.Append]
  rw [if_pos hfit, AppendLoop_throw u w t [] pre post s hpre hs]
  simp

theorem Append_realloc_throw (u : Bool) (w : World) (t : Tally) (b : ShiftBuffer)
    (pre post src : List Nat) (s : Nat)
    (hitems : b.items = pre ++ s :: post)
    (hbig : b.capacity - b.items.length < src.length)
    (hpre : ∀ x ∈ pre, (getStat w x).ThrowOnMove = false)
    (hs : (getStat w s).ThrowOnMove = true) :
    ShiftBuffer.Append u w t b src
      = ⟨(destroyAll (markMoved (afterCtors true w pre) s)
            ⟨t.constructions + pre.length, t.destructions⟩ (pre ++ s :: post)).1,
         (destroyAll (markMoved (afterCtors true w pre) s)
            ⟨t.constructions + pre.length, t.destructions⟩ (pre ++ s :: post)).2,
         ⟨max (b.capacity * 2) ((pre ++ s :: post).length + src.length), 0, pre⟩,
         true⟩ := by
  have hc1 : ¬ src.length ≤ b.capacity - b.head - b.items.length := by omega
  have hc2 : ¬ src.length ≤ b.capacity - b.items.length := by omega
  simp only [ShiftBuffer.Append]
  rw [if_neg hc1, if_neg hc2, hitems]
  rw [AppendLoop_throw true w t [] pre post s
    (fun x hx => by rw [ctorThrows_true]; exact hpre x hx)
    (by rw [ctorThrows_true]; exact hs)]
  simp [markConstructed]

theorem Read_throw (w : World) (t : Tally) (cap hd : Nat)
    (pre rest dpre dpost : List Nat) (d s m : Nat)
    (hlen : dpre.length = pre.length)
    (hpre : ∀ x ∈ pre, (getStat w x).ThrowOnMove = false)
    (hs : (getStat w s).ThrowOnMove = true) :
    ShiftBuffer.Read w t ⟨cap, hd, pre ++ s :: rest⟩ (dpre ++ d :: dpost)
        (pre.length + m + 1)
      = ⟨markMoved (markOverwritten (afterExtract w (dpre.zip pre)) d) s,
         ⟨t.constructions, t.destructions + pre.length⟩,
         pre ++ s :: dpost, ⟨cap, hd + pre.length, s :: rest⟩, true⟩ := by
  simp only [ShiftBuffer.Read]
  rw [ReadLoop_throw w t [] dpre dpost pre rest d s m hlen hpre hs]
  simp

/-! The construction/destruction tally stays balanced against the live count
through every operation, on every path, throwing or not. -/

theorem Append_balance (u : Bool) (w : World) (t : Tally) (b : ShiftBuffer)
    (src : List Nat) (h : t.constructions = t.destructions + b.Count) :
    (ShiftBuffer.Append u w t b src).tally.constructions
      = (ShiftBuffer.Append u w t b src).tally.destructions
          + (ShiftBuffer.Append u w t b src).buf.Count := by
  simp only [ShiftBuffer.Count] at h
  simp only [ShiftBuffer.Append, ShiftBuffer.Count]
  split
  · rcases AppendLoop_tally u w t [] src with ⟨h1, h2⟩
    simp only [List.length_nil, Nat.add_zero] at h1
    simp only [List.length_append]
    omega
  split
  · rcases CompactLoop_tally w t [] b.items with ⟨h1, h2, h3⟩
    simp only [List.length_nil, Nat.zero_add, Nat.add_zero] at h1 h2 h3
    split
    · rename_i hthrew
      rw [destroyAll_tally, destroyAll_tally]
      simp only [List.length_nil]
      omega
    · rename_i hthrew
      rcases AppendLoop_tally u (CompactLoop w t [] b.items).world
        (CompactLoop w t [] b.items).tally [] src with ⟨h4, h5⟩
      simp only [List.length_nil, Nat.add_zero] at h4
      have hrem : (CompactLoop w t [] b.items).remaining = [] :=
        CompactLoop_nothrow_remaining w t [] b.items (by
          revert hthrew; cases (CompactLoop w t [] b.items).threw <;> simp)
      rw [hrem] at h3
      simp only [List.length_append, List.length_nil] at h3 ⊢
      omega
  · rcases AppendLoop_tally true w t [] b.items with ⟨h1, h2⟩
    simp only [List.length_nil, Nat.add_zero] at h1
    rw [destroyAll_tally]
    split
    · simp only []
      omega
    · rename_i hthrew
      have hdone : (AppendLoop true w t [] b.items).done.length = b.items.length := by
        have := AppendLoop_done_length true w t [] b.items (by
          revert hthrew; cases (AppendLoop true w t [] b.items).threw <;> simp)
        simpa using this
      rcases AppendLoop_tally u
        (destroyAll (AppendLoop true w t [] b.items).world
          (AppendLoop true w t [] b.items).tally b.items).1
        ⟨(AppendLoop true w t [] b.items).tally.constructions,
         (AppendLoop true w t [] b.items).tally.destructions + b.items.length⟩
        [] src with ⟨h4, h5⟩
      simp only [List.length_nil, Nat.add_zero] at h4
      dsimp only at h4 h5 ⊢
      simp only [List.length_append]
      omega

theorem Read_balance (w : World) (t : Tally) (b : ShiftBuffer) (dst : List Nat)
    (n : Nat) (h : t.constructions = t.destructions + b.Count) :
    (ShiftBuffer.Read w t b dst n).tally.constructions
      = (ShiftBuffer.Read w t b dst n).tally.destructions
          + (ShiftBuffer.Read w t b dst n).buf.Count := by
  simp only [ShiftBuffer.Count] at h
  simp only [ShiftBuffer.Read, ShiftBuffer.Count]
  rcases ReadLoop_tally w t [] dst b.items n with ⟨h1, h2⟩
  omega

theorem applyOp_balance (st : TraceState) (op : BufOp)
    (h : st.tally.constructions = st.tally.destructions + st.buf.Count) :
    (applyOp st op).tally.constructions
      = (applyOp st op).tally.destructions + (applyOp st op).buf.Count := by
  cases op with
  | write src => exact Append_balance false st.world st.tally st.buf src h
  | shove src => exact Append_balance true st.world st.tally st.buf src h
  | read dst n => exact Read_balance st.world st.tally st.buf dst n h

theorem runOps_balance (ops : List BufOp) (st : TraceState)
    (h : st.tally.constructions = st.tally.destructions + st.buf.Count) :
    (runOps st ops).tally.constructions
      = (runOps st ops).tally.destructions + (runOps st ops).buf.Count := by
  induction ops generalizing st with
  | nil => exact h
  | cons op rest ih =>
    simp only [runOps, List.foldl] at ih ⊢
    exact ih (applyOp st op) (applyOp_balance st op h)

/-! Value-level lemmas for the byte-oriented behaviour. -/

theorem items_Write (b : PlainBuffer α) (src : List α) :
    (b.Write src).items = b.items ++ src := by
  unfold PlainBuffer.Write
  split
  · rfl
  · split
    · rfl
    · rfl

theorem runPlain_fifo_aux (ops : List (PlainOp α)) (b : PlainBuffer α) (acc : List α) :
    (ops.foldl plainStep (b, acc)).2 ++ (ops.foldl plainStep (b, acc)).1.items
      = acc ++ b.items ++ opInputs ops := by
  induction ops generalizing b acc with
  | nil => simp [opInputs]
  | cons op rest ih =>
    cases op with
    | write src =>
      simp only [List.foldl, plainStep]
      rw [ih]
      simp [opInputs, items_Write]
    | shove src =>
      simp only [List.foldl, plainStep, PlainBuffer.Shove]
      rw [ih]
      simp [opInputs, items_Write]
    | read n =>
      simp only [List.foldl, plainStep, PlainBuffer.Read]
      rw [ih]
      simp [opInputs]

theorem runPlain_fifo (ops : List (PlainOp α)) (b : PlainBuffer α) :
    (runPlain b ops).2 ++ (runPlain b ops).1.items = b.items ++ opInputs ops := by
  have h := runPlain_fifo_aux ops b ([] : List α)
  simpa [runPlain] using h

/-! Concrete scenarios, mirroring the repository's unit tests item for item. -/

/-- World of `ExceptionDuringWriteCausesNoLeaks`: 16 fresh stats records with
record 10 armed to throw on copy. -/
def writeThrowWorld : World :=
  modifyStat (freshWorld 16) 10 (fun st => { st with ThrowOnCopy := true })

/-- Scenario of `ExceptionDuringWriteCausesNoLeaks` (ShiftBufferTest.cpp
lines 519-557): Write of 16 items into a fresh capacity-16 buffer, with item
10 armed to throw on copy. -/
def writeThrowScenario : OpResult :=
  ShiftBuffer.Write writeThrowWorld {} (ShiftBuffer.new 16) (List.range 16)

/-- World of `ExceptionDuringShoveCausesNoLeaks`: record 10 armed to throw on
move. -/
def shoveThrowWorld : World :=
  modifyStat (freshWorld 16) 10 (fun st => { st with ThrowOnMove := true })

/-- Scenario of `ExceptionDuringShoveCausesNoLeaks` (lines 561-599). -/
def shoveThrowScenario : OpResult :=
  ShiftBuffer.Shove shoveThrowWorld {} (ShiftBuffer.new 16) (List.range 16)

/-- First half of the capacity-growth scenarios: 16 items copy-appended into a
fresh capacity-16 buffer (17 stats records exist). -/
def growSetup : OpResult :=
  ShiftBuffer.Write (freshWorld 17) {} (ShiftBuffer.new 16) (List.range 16)

/-- Scenario of `MoveSemanticsAreUsedWhenCapacityChanges` (lines 349-384):
writing item 16 into the full buffer forces a reallocation. -/
def growScenario : OpResult :=
  ShiftBuffer.Write growSetup.world growSetup.tally growSetup.buf [16]

/-- World of `ExceptionDuringCapacityChangeCausesNoLeaks`: after the first
Write, record 10 is armed to throw on move. -/
def growThrowWorld : World :=
  modifyStat growSetup.world 10 (fun st => { st with ThrowOnMove := true })

/-- Scenario of `ExceptionDuringCapacityChangeCausesNoLeaks` (lines 467-515):
the growth-forcing Write with item 10 armed to throw on move. -/
def growThrowScenario : OpResult :=
  ShiftBuffer.Write growThrowWorld growSetup.tally growSetup.buf [16]

/-- Setup of `ExceptionDuringReadCausesNoLeaks` (lines 603-654): 16 items
written; ids 16..31 are the 16 pre-constructed destination items. -/
def readThrowSetup : OpResult :=
  ShiftBuffer.Write (freshWorld 32) {} (ShiftBuffer.new 16) (List.range 16)

/-- World of `ExceptionDuringReadCausesNoLeaks`: record 5 armed to throw on
move after the setup Write. -/
def readThrowWorld : World :=
  modifyStat readThrowSetup.world 5 (fun st => { st with ThrowOnMove := true })

/-- Scenario of `ExceptionDuringReadCausesNoLeaks`: Read of 8 items into
destination slots holding ids 16..31, with buffer item 5 armed to throw on
move-assign. -/
def readThrowScenario : ReadResult :=
  ShiftBuffer.Read readThrowWorld readThrowSetup.tally readThrowSetup.buf
    ((List.range 16).map (fun i => 16 + i)) 8

/-! Claim theorems. -/

/-- C1 (counterexample): in the scenario of
`ExceptionDuringWriteCausesNoLeaks` — a Write of 16 items that fits in the
free tail, with the copy constructor of item k = 10 armed to throw — the claim
says the 10 already-appended slots are destroyed before the exception
propagates and that Count is unchanged (still 0).  In fact the buffer keeps
the 10 appended items (Count = 10 ≠ 0) and no item is destroyed (item 0's
destroy count is 0, not 1), exactly as the test expects. -/
theorem C1_counterexample :
    writeThrowScenario.threw = true ∧
    ¬ writeThrowScenario.buf.Count = 0 ∧
    ¬ (getStat writeThrowScenario.world 0).DestroyCount = 1 := by decide

/-- C1 (amended): when the copy- or move-construct of element k throws during
an append that fits in the existing free tail (no reallocation, no
compaction), the k already-appended elements are kept — not destroyed — so
the buffer's head is unchanged, its Count grows by k, and no destroy count in
the world changes before the exception propagates (basic guarantee, not the
strong guarantee the spec claims). -/
theorem C1_amended (u : Bool) (w : World) (t : Tally) (b : ShiftBuffer)
    (pre post : List Nat) (s : Nat)
    (hfit : (pre ++ s :: post).length ≤ b.capacity - b.head - b.items.length)
    (hpre : ∀ x ∈ pre, ctorThrows u w x = false)
    (hs : ctorThrows u w s = true) :
    (ShiftBuffer.Append u w t b (pre ++ s :: post)).threw = true ∧
    (ShiftBuffer.Append u w t b (pre ++ s :: post)).buf.items = b.items ++ pre ∧
    (ShiftBuffer.Append u w t b (pre ++ s :: post)).buf.head = b.head ∧
    (ShiftBuffer.Append u w t b (pre ++ s :: post)).buf.Count = b.Count + pre.length ∧
    ∀ j, (getStat (ShiftBuffer.Append u w t b (pre ++ s :: post)).world j).DestroyCount
        = (getStat w j).DestroyCount := by
  rw [Append_fits_throw u w t b pre post s hfit hpre hs]
  refine ⟨rfl, rfl, rfl, by simp [ShiftBuffer.Count], ?_⟩
  intro j
  show (getStat (markConstructed u (afterCtors u w pre) s) j).DestroyCount
      = (getStat w j).DestroyCount
  rw [DestroyCount_markConstructed, DestroyCount_afterCtors]

/-- C1 (witness): the amended statement applied to the concrete scenario of
`ExceptionDuringWriteCausesNoLeaks`. -/
theorem C1_witness :
    (ShiftBuffer.Append false writeThrowWorld {} (ShiftBuffer.new 16)
      (List.range 10 ++ 10 :: [11, 12, 13, 14, 15])).threw = true :=
  (C1_amended false writeThrowWorld {} (ShiftBuffer.new 16)
    (List.range 10) [11, 12, 13, 14, 15] 10
    (by decide) (by decide) (by decide)).1

/-- C9: when a copy- or move-construction throws on element k during an
append into a fresh buffer that fits in existing capacity, none of the
involved items is destroyed at exception time (all destroy counts are 0), the
buffer retains exactly the k appended elements, and destroying the buffer
afterwards destroys each of those k exactly once while the throwing element
and the never-appended elements are never destroyed by the buffer. -/
theorem C9_retained_then_destroyed (u : Bool) (w : World) (t : Tally) (c : Nat)
    (pre post : List Nat) (s : Nat)
    (hfit : (pre ++ s :: post).length ≤ (ShiftBuffer.new c).capacity)
    (hnd : (pre ++ s :: post).Nodup)
    (hv : ∀ x ∈ pre ++ s :: post, x < w.length)
    (hzero : ∀ x ∈ pre ++ s :: post, (getStat w x).DestroyCount = 0)
    (hpre : ∀ x ∈ pre, ctorThrows u w x = false)
    (hs : ctorThrows u w s = true) :
    (ShiftBuffer.Append u w t (ShiftBuffer.new c) (pre ++ s :: post)).threw = true ∧
    (∀ x ∈ pre ++ s :: post,
      (getStat (ShiftBuffer.Append u w t (ShiftBuffer.new c)
        (pre ++ s :: post)).world x).DestroyCount = 0) ∧
    (ShiftBuffer.Append u w t (ShiftBuffer.new c) (pre ++ s :: post)).buf.items = pre ∧
    (∀ x ∈ pre,
      (getStat (ShiftBuffer.destruct
        (ShiftBuffer.Append u w t (ShiftBuffer.new c) (pre ++ s :: post)).world
        (ShiftBuffer.Append u w t (ShiftBuffer.new c) (pre ++ s :: post)).tally
        (ShiftBuffer.Append u w t (ShiftBuffer.new c) (pre ++ s :: post)).buf).1
        x).DestroyCount = 1) ∧
    (∀ x ∈ s :: post,
      (getStat (ShiftBuffer.destruct
        (ShiftBuffer.Append u w t (ShiftBuffer.new c) (pre ++ s :: post)).world
        (ShiftBuffer.Append u w t (ShiftBuffer.new c) (pre ++ s :: post)).tally
        (ShiftBuffer.Append u w t (ShiftBuffer.new c) (pre ++ s :: post)).buf).1
        x).DestroyCount = 0) := by
  have hfit2 : (pre ++ s :: post).length
      ≤ (ShiftBuffer.new c).capacity - (ShiftBuffer.new c).head
          - (ShiftBuffer.new c).items.length := by
    simpa [ShiftBuffer.new] using hfit
  rw [Append_fits_throw u w t (ShiftBuffer.new c) pre post s hfit2 hpre hs]
  rcases List.nodup_append.mp hnd with ⟨hndpre, _, hdisj⟩
  have hw : ∀ x,
      (getStat (markConstructed u (afterCtors u w pre) s) x).DestroyCount
        = (getStat w x).DestroyCount := by
    intro x
    rw [DestroyCount_markConstructed, DestroyCount_afterCtors]
  have hlen : (markConstructed u (afterCtors u w pre) s).length = w.length := by
    rw [length_markConstructed, length_afterCtors]
  have hitems : ((ShiftBuffer.new c).items ++ pre) = pre := by
    simp [ShiftBuffer.new]
  refine ⟨rfl, ?_, ?_, ?_, ?_⟩
  · intro x hx
    rw [hw x]
    exact hzero x hx
  · exact hitems
  · intro x hx
    show (getStat (destroyAll (markConstructed u (afterCtors u w pre) s) _
        ((ShiftBuffer.new c).items ++ pre)).1 x).DestroyCount = 1
    rw [hitems, DestroyCount_destroyAll _ _ pre x (fun y hy => by
      rw [hlen]; exact hv y (List.mem_append_left _ hy))]
    rw [hw x, hzero x (List.mem_append_left _ hx), occs_of_nodup_mem hndpre hx]
  · intro x hx
    show (getStat (destroyAll (markConstructed u (afterCtors u w pre) s) _
        ((ShiftBuffer.new c).items ++ pre)).1 x).DestroyCount = 0
    rw [hitems, DestroyCount_destroyAll _ _ pre x (fun y hy => by
      rw [hlen]; exact hv y (List.mem_append_left _ hy))]
    rw [hw x, hzero x (List.mem_append_right _ hx),
      occs_of_not_mem (fun hmem => hdisj hmem hx)]

/-- C9 (witness): the statement applied to the concrete scenario of
`ExceptionDuringShoveCausesNoLeaks`. -/
theorem C9_witness :
    (ShiftBuffer.Append true shoveThrowWorld {} (ShiftBuffer.new 16)
      (List.range 10 ++ 10 :: [11, 12, 13, 14, 15])).threw = true :=
  (C9_retained_then_destroyed true shoveThrowWorld {} 16
    (List.range 10) [11, 12, 13, 14, 15] 10
    (by decide) (by decide) (by decide) (by decide) (by decide) (by decide)).1

/-- C2 (counterexample): in the scenario of
`ExceptionDuringCapacityChangeCausesNoLeaks` — a full capacity-16 buffer,
item 10 armed to throw on move, one more Write forcing reallocation — the
claim says the buffer sets count = 0 and that destroying the buffer destroys
no further elements.  In fact Count is 10 after the exception (the 10
successfully-moved items are kept in the new storage), and destroying the
buffer raises item 0's destroy count from 1 to 2, exactly as the test
expects. -/
theorem C2_counterexample :
    growThrowScenario.threw = true ∧
    ¬ growThrowScenario.buf.Count = 0 ∧
    (getStat growThrowScenario.world 0).DestroyCount = 1 ∧
    ¬ (getStat (ShiftBuffer.destruct growThrowScenario.world growThrowScenario.tally
        growThrowScenario.buf).1 0).DestroyCount
      = (getStat growThrowScenario.world 0).DestroyCount := by decide

/-- C2 (amended): on the reallocation path, if the move-construct of
live-window element k into the new storage throws, the buffer destroys the
entire old live window (each original exactly once) and releases the old
storage, but keeps the k elements already moved into the new storage: the
result has head 0, the grown capacity, and holds exactly those k elements.
Every original therefore has its destroy count raised by exactly one at the
moment the exception is observed, and a subsequent destruction of the buffer
destroys the k kept elements once more. -/
theorem C2_amended (u : Bool) (w : World) (t : Tally) (b : ShiftBuffer)
    (pre post src : List Nat) (s : Nat)
    (hitems : b.items = pre ++ s :: post)
    (hbig : b.capacity - b.items.length < src.length)
    (hv : ∀ x ∈ b.items, x < w.length)
    (hpre : ∀ x ∈ pre, (getStat w x).ThrowOnMove = false)
    (hs : (getStat w s).ThrowOnMove = true) :
    (ShiftBuffer.Append u w t b src).threw = true ∧
    (ShiftBuffer.Append u w t b src).buf.items = pre ∧
    (ShiftBuffer.Append u w t b src).buf.head = 0 ∧
    (ShiftBuffer.Append u w t b src).buf.capacity
        = max (b.capacity * 2) (b.Count + src.length) ∧
    (∀ j, (getStat (ShiftBuffer.Append u w t b src).world j).DestroyCount
        = (getStat w j).DestroyCount + occs b.items j) ∧
    (∀ j, (getStat (ShiftBuffer.Append u w t b src).world j).MoveCount
        = (getStat w j).MoveCount + occs (pre ++ [s]) j) ∧
    (∀ j, (getStat (ShiftBuffer.Append u w t b src).world j).CopyCount
        = (getStat w j).CopyCount) ∧
    (∀ j, (getStat (ShiftBuffer.destruct (ShiftBuffer.Append u w t b src).world
          (ShiftBuffer.Append u w t b src).tally
          (ShiftBuffer.Append u w t b src).buf).1 j).DestroyCount
        = (getStat w j).DestroyCount + occs b.items j + occs pre j) := by
  have hvpre : ∀ x ∈ pre, x < w.length := fun x hx =>
    hv x (by rw [hitems]; exact List.mem_append_left _ hx)
  have hvs : s < w.length :=
    hv s (by rw [hitems]; exact List.mem_append_right _ (List.mem_cons_self s post))
  have hlen1 : (markMoved (afterCtors true w pre) s).length = w.length := by
    rw [length_markMoved, length_afterCtors]
  have hvall : ∀ x ∈ pre ++ s :: post, x < (markMoved (afterCtors true w pre) s).length :=
    fun x hx => by rw [hlen1]; exact hv x (by rw [hitems]; exact hx)
  rw [Append_realloc_throw u w t b pre post src s hitems hbig hpre hs]
  have hdestroy : ∀ j,
      (getStat (destroyAll (markMoved (afterCtors true w pre) s)
        ⟨t.constructions + pre.length, t.destructions⟩ (pre ++ s :: post)).1
        j).DestroyCount
      = (getStat w j).DestroyCount + occs b.items j := by
    intro j
    rw [DestroyCount_destroyAll _ _ _ j hvall, DestroyCount_markMoved,
      DestroyCount_afterCtors, hitems]
  refine ⟨rfl, rfl, rfl, ?_, hdestroy, ?_, ?_, ?_⟩
  · simp [ShiftBuffer.Count, hitems]
  · intro j
    rw [MoveCount_destroyAll, MoveCount_markMoved _ _ _ (by
      rw [length_afterCtors]; exact hvs)]
    rw [MoveCount_afterCtors true w pre j hvpre, occs_append]
    simp [occs, Nat.add_assoc]
  · intro j
    rw [CopyCount_destroyAll, CopyCount_markMoved,
      CopyCount_afterCtors true w pre j hvpre]
    simp
  · intro j
    show (getStat (destroyAll _ _ pre).1 j).DestroyCount = _
    rw [DestroyCount_destroyAll _ _ pre j (fun y hy => by
      rw [length_destroyAll, hlen1]; exact hvpre y hy)]
    rw [hdestroy j]

/-- C2 (witness): the amended statement applied to the concrete scenario of
`ExceptionDuringCapacityChangeCausesNoLeaks`. -/
theorem C2_witness :
    (ShiftBuffer.Append false growThrowWorld growSetup.tally growSetup.buf [16]).threw
      = true :=
  (C2_amended false growThrowWorld growSetup.tally growSetup.buf
    (List.range 10) [11, 12, 13, 14, 15] [16] 10
    (by decide) (by decide) (by decide) (by decide) (by decide)).1

/-- C10: after a reallocation move throws on live element k, the buffer still
holds exactly the k elements whose moves succeeded; every original has
destroy count 1 at exception time, and destroying the buffer then destroys
those k elements a second time (their total reaches 2) while the throwing
element and the never-moved elements end with destroy count exactly 1. -/
theorem C10_kept_items_destroyed_again (u : Bool) (w : World) (t : Tally)
    (b : ShiftBuffer) (pre post src : List Nat) (s : Nat)
    (hitems : b.items = pre ++ s :: post)
    (hbig : b.capacity - b.items.length < src.length)
    (hnd : b.items.Nodup)
    (hv : ∀ x ∈ b.items, x < w.length)
    (hzero : ∀ x ∈ b.items, (getStat w x).DestroyCount = 0)
    (hpre : ∀ x ∈ pre, (getStat w x).ThrowOnMove = false)
    (hs : (getStat w s).ThrowOnMove = true) :
    (ShiftBuffer.Append u w t b src).threw = true ∧
    (ShiftBuffer.Append u w t b src).buf.items = pre ∧
    (ShiftBuffer.Append u w t b src).buf.Count = pre.length ∧
    (∀ x ∈ b.items, (getStat (ShiftBuffer.Append u w t b src).world x).DestroyCount = 1) ∧
    (∀ x ∈ pre, (getStat (ShiftBuffer.destruct (ShiftBuffer.Append u w t b src).world
        (ShiftBuffer.Append u w t b src).tally
        (ShiftBuffer.Append u w t b src).buf).1 x).DestroyCount = 2) ∧
    (getStat (ShiftBuffer.destruct (ShiftBuffer.Append u w t b src).world
        (ShiftBuffer.Append u w t b src).tally
        (ShiftBuffer.Append u w t b src).buf).1 s).DestroyCount = 1 ∧
    (∀ x ∈ post, (getStat (ShiftBuffer.destruct (ShiftBuffer.Append u w t b src).world
        (ShiftBuffer.Append u w t b src).tally
        (ShiftBuffer.Append u w t b src).buf).1 x).DestroyCount = 1) := by
  have hvpre : ∀ x ∈ pre, x < w.length := fun x hx =>
    hv x (by rw [hitems]; exact List.mem_append_left _ hx)
  have hlen1 : (markMoved (afterCtors true w pre) s).length = w.length := by
    rw [length_markMoved, length_afterCtors]
  have hvall : ∀ x ∈ pre ++ s :: post, x < (markMoved (afterCtors true w pre) s).length :=
    fun x hx => by rw [hlen1]; exact hv x (by rw [hitems]; exact hx)
  have hndsplit := List.nodup_append.mp (hitems ▸ hnd)
  rcases hndsplit with ⟨hndpre, hndtail, hdisj⟩
  have hsnotpre : s ∉ pre := fun hmem => hdisj hmem (List.mem_cons_self s post)
  rw [Append_realloc_throw u w t b pre post src s hitems hbig hpre hs]
  have hdestroy : ∀ j,
      (getStat (destroyAll (markMoved (afterCtors true w pre) s)
        ⟨t.constructions + pre.length, t.destructions⟩ (pre ++ s :: post)).1
        j).DestroyCount
      = (getStat w j).DestroyCount + occs (pre ++ s :: post) j := by
    intro j
    rw [DestroyCount_destroyAll _ _ _ j hvall, DestroyCount_markMoved,
      DestroyCount_afterCtors]
  have hnd2 : (pre ++ s :: post).Nodup := hitems ▸ hnd
  refine ⟨rfl, rfl, by simp [ShiftBuffer.Count], ?_, ?_, ?_, ?_⟩
  · intro x hx
    rw [hdestroy x, hzero x hx, occs_of_nodup_mem hnd2 (hitems ▸ hx)]
  · intro x hx
    show (getStat (destroyAll _ _ pre).1 x).DestroyCount = 2
    rw [DestroyCount_destroyAll _ _ pre x (fun y hy => by
      rw [length_destroyAll, hlen1]; exact hvpre y hy)]
    rw [hdestroy x, hzero x (by rw [hitems]; exact List.mem_append_left _ hx)]
    rw [occs_of_nodup_mem hnd2 (List.mem_append_left _ hx),
      occs_of_nodup_mem hndpre hx]
  · show (getStat (destroyAll _ _ pre).1 s).DestroyCount = 1
    rw [DestroyCount_destroyAll _ _ pre s (fun y hy => by
      rw [length_destroyAll, hlen1]; exact hvpre y hy)]
    rw [hdestroy s, hzero s (by
      rw [hitems]; exact List.mem_append_right _ (List.mem_cons_self s post))]
    rw [occs_of_nodup_mem hnd2
      (List.mem_append_right _ (List.mem_cons_self s post)),
      occs_of_not_mem hsnotpre]
  · intro x hx
    show (getStat (destroyAll _ _ pre).1 x).DestroyCount = 1
    rw [DestroyCount_destroyAll _ _ pre x (fun y hy => by
      rw [length_destroyAll, hlen1]; exact hvpre y hy)]
    rw [hdestroy x, hzero x (by
      rw [hitems]; exact List.mem_append_right _ (List.mem_cons_of_mem s hx))]
    rw [occs_of_nodup_mem hnd2
      (List.mem_append_right _ (List.mem_cons_of_mem s hx)),
      occs_of_not_mem (fun hmem => hdisj hmem (List.mem_cons_of_mem s hx))]

/-- C10 (witness): the statement applied to the concrete scenario of
`ExceptionDuringCapacityChangeCausesNoLeaks`. -/
theorem C10_witness :
    (ShiftBuffer.Append false growThrowWorld growSetup.tally growSetup.buf [16]).buf.items
      = List.range 10 :=
  (C10_kept_items_destroyed_again false growThrowWorld growSetup.tally growSetup.buf
    (List.range 10) [11, 12, 13, 14, 15] [16] 10
    (by decide) (by decide) (by decide) (by decide) (by decide) (by decide)
    (by decide)).2.1

/-- C3 (counterexample): in the scenario of `ExceptionDuringReadCausesNoLeaks`
— Read of 8 items with the move-assign of item i = 5 armed to throw — the
claim says the destination slots dst[i..n) are untouched with overwrite count
0.  In fact the failing assignment touches dst[5] before throwing: the
destination slot's overwrite count (its stats record is id 21 = 16 + 5) is 1,
exactly as the test expects. -/
theorem C3_counterexample :
    readThrowScenario.threw = true ∧
    readThrowScenario.buf.head = 5 ∧
    ¬ (getStat readThrowScenario.world 21).OverwriteCount = 0 := by decide

/-- C3 (amended): for Read(dst, n) with n ≤ Count, if the move-assign of item
i throws, then head has advanced by i, count has decreased by i, the buffer
slots before the failing one have been destroyed while the failing item and
everything after it remain live, dst[0..i) have been overwritten by
move-assignment, dst[i] has additionally been touched by the failing
assignment (its overwrite count also rises by one and it now shares the
failing item's stats record), and dst(i..n) are untouched. -/
theorem C3_amended (w : World) (t : Tally) (cap hd : Nat)
    (pre rest dpre dpost : List Nat) (d s m : Nat)
    (hlen : dpre.length = pre.length)
    (hpre : ∀ x ∈ pre, (getStat w x).ThrowOnMove = false)
    (hs : (getStat w s).ThrowOnMove = true)
    (hv : ∀ x ∈ pre, x < w.length) (hvs : s < w.length)
    (hvd : ∀ x ∈ dpre, x < w.length) (hvd2 : d < w.length) :
    (ShiftBuffer.Read w t ⟨cap, hd, pre ++ s :: rest⟩ (dpre ++ d :: dpost)
        (pre.length + m + 1)).threw = true ∧
    (ShiftBuffer.Read w t ⟨cap, hd, pre ++ s :: rest⟩ (dpre ++ d :: dpost)
        (pre.length + m + 1)).buf.head = hd + pre.length ∧
    (ShiftBuffer.Read w t ⟨cap, hd, pre ++ s :: rest⟩ (dpre ++ d :: dpost)
        (pre.length + m + 1)).buf.items = s :: rest ∧
    (ShiftBuffer.Read w t ⟨cap, hd, pre ++ s :: rest⟩ (dpre ++ d :: dpost)
        (pre.length + m + 1)).buf.Count + pre.length = (pre ++ s :: rest).length ∧
    (ShiftBuffer.Read w t ⟨cap, hd, pre ++ s :: rest⟩ (dpre ++ d :: dpost)
        (pre.length + m + 1)).dst = pre ++ s :: dpost ∧
    (∀ j, (getStat (ShiftBuffer.Read w t ⟨cap, hd, pre ++ s :: rest⟩
          (dpre ++ d :: dpost) (pre.length + m + 1)).world j).DestroyCount
        = (getStat w j).DestroyCount + occs pre j) ∧
    (∀ j, (getStat (ShiftBuffer.Read w t ⟨cap, hd, pre ++ s :: rest⟩
          (dpre ++ d :: dpost) (pre.length + m + 1)).world j).MoveCount
        = (getStat w j).MoveCount + occs (pre ++ [s]) j) ∧
    (∀ j, (getStat (ShiftBuffer.Read w t ⟨cap, hd, pre ++ s :: rest⟩
          (dpre ++ d :: dpost) (pre.length + m + 1)).world j).OverwriteCount
        = (getStat w j).OverwriteCount + occs (dpre ++ [d]) j) ∧
    (∀ j, (getStat (ShiftBuffer.Read w t ⟨cap, hd, pre ++ s :: rest⟩
          (dpre ++ d :: dpost) (pre.length + m + 1)).world j).CopyCount
        = (getStat w j).CopyCount) := by
  have hvzip2 : ∀ p ∈ dpre.zip pre, p.2 < w.length := fun p hp =>
    hv p.2 (List.of_mem_zip hp).2
  have hvzip1 : ∀ p ∈ dpre.zip pre, p.1 < w.length := fun p hp =>
    hvd p.1 (List.of_mem_zip hp).1
  have hmapsnd : (dpre.zip pre).map Prod.snd = pre :=
    List.map_snd_zip dpre pre hlen.ge
  have hmapfst : (dpre.zip pre).map Prod.fst = dpre :=
    List.map_fst_zip dpre pre hlen.le
  have hlenE : (afterExtract w (dpre.zip pre)).length = w.length :=
    length_afterExtract w _
  rw [Read_throw w t cap hd pre rest dpre dpost d s m hlen hpre hs]
  refine ⟨rfl, rfl, rfl, by simp [ShiftBuffer.Count]; omega, rfl, ?_, ?_, ?_, ?_⟩
  · intro j
    rw [DestroyCount_markMoved, DestroyCount_markOverwritten,
      DestroyCount_afterExtract w _ j hvzip2, hmapsnd]
  · intro j
    rw [MoveCount_markMoved _ _ _ (by rw [length_markOverwritten, hlenE]; exact hvs),
      MoveCount_markOverwritten,
      MoveCount_afterExtract w _ j hvzip2, hmapsnd, occs_append]
    simp [occs, Nat.add_assoc]
  · intro j
    rw [OverwriteCount_markMoved,
      OverwriteCount_markOverwritten _ _ _ (by rw [hlenE]; exact hvd2),
      OverwriteCount_afterExtract w _ j hvzip1, hmapfst, occs_append]
    simp [occs, Nat.add_assoc]
  · intro j
    rw [CopyCount_markMoved, CopyCount_markOverwritten, CopyCount_afterExtract]

/-- C3 (witness): the amended statement applied to the concrete scenario of
`ExceptionDuringReadCausesNoLeaks` (i = 5, n = 8, destination ids 16..31). -/
theorem C3_witness :
    (ShiftBuffer.Read readThrowWorld readThrowSetup.tally
      ⟨16, 0, List.range 5 ++ 5 :: [6, 7, 8, 9, 10, 11, 12, 13, 14, 15]⟩
      ([16, 17, 18, 19, 20] ++ 21 :: [22, 23, 24, 25, 26, 27, 28, 29, 30, 31])
      ((List.range 5).length + 2 + 1)).threw = true :=
  (C3_amended readThrowWorld readThrowSetup.tally 16 0
    (List.range 5) [6, 7, 8, 9, 10, 11, 12, 13, 14, 15]
    [16, 17, 18, 19, 20] [22, 23, 24, 25, 26, 27, 28, 29, 30, 31] 21 5 2
    (by decide) (by decide) (by decide) (by decide) (by decide) (by decide)
    (by decide)).1

/-- C4: the scenario of `MoveSemanticsAreUsedWhenCapacityChanges` — capacity
16, 16 items copy-appended, then one more Write forcing growth.  The Write
succeeds, Count is 17, each of the 16 pre-existing items was copied once,
moved once and destroyed once, and the new item 16 was copied once and
neither moved nor destroyed. -/
theorem C4_grow_move_accounting :
    growScenario.threw = false ∧
    growScenario.buf.Count = 17 ∧
    ((List.range 16).all (fun i => decide (getStat growScenario.world i
        = { CopyCount := 1, MoveCount := 1, DestroyCount := 1 }))) = true ∧
    getStat growScenario.world 16 = { CopyCount := 1 } := by decide

/-- C5: FIFO round-trip at the value level: writing any sequence into a fresh
buffer and reading it back returns exactly that sequence in order and leaves
Count 0; and across any trace of Write/Shove/Read operations on any buffer,
the concatenation of everything Read returns, followed by what remains in the
buffer, equals the prior contents followed by everything delivered to
Write/Shove — elements leave in exactly the order they entered. -/
theorem C5_fifo_roundtrip :
    (∀ (s : List Nat) (c : Nat),
      (((PlainBuffer.new Nat c).Write s).Read s.length).1 = s ∧
      ((((PlainBuffer.new Nat c).Write s).Read s.length).2).Count = 0) ∧
    (∀ (ops : List (PlainOp Nat)) (b : PlainBuffer Nat),
      (runPlain b ops).2 ++ (runPlain b ops).1.items = b.items ++ opInputs ops) := by
  constructor
  · intro s c
    have hw : ((PlainBuffer.new Nat c).Write s).items = s := by
      rw [items_Write]
      simp [PlainBuffer.new]
    constructor
    · simp [PlainBuffer.Read, hw]
    · simp [PlainBuffer.Read, PlainBuffer.Count, hw]
  · intro ops b
    exact runPlain_fifo ops b

/-- C6: a successful Shove that fits in existing capacity move-constructs each
source element exactly once into the buffer: afterwards every source item has
move count 1, copy count 0, destroy count 0 (and was never assigned to) — the
buffer neither copies nor destroys the source items, whose destruction remains
the caller's responsibility. -/
theorem C6_shove_accounting (w : World) (t : Tally) (c : Nat) (src : List Nat)
    (hfit : src.length ≤ (ShiftBuffer.new c).GetCapacity)
    (hnd : src.Nodup)
    (hv : ∀ x ∈ src, x < w.length)
    (hfresh : ∀ x ∈ src, getStat w x = {}) :
    (ShiftBuffer.Shove w t (ShiftBuffer.new c) src).threw = false ∧
    (ShiftBuffer.Shove w t (ShiftBuffer.new c) src).buf.items = src ∧
    (ShiftBuffer.Shove w t (ShiftBuffer.new c) src).buf.Count = src.length ∧
    ∀ x ∈ src,
      (getStat (ShiftBuffer.Shove w t (ShiftBuffer.new c) src).world x).MoveCount = 1 ∧
      (getStat (ShiftBuffer.Shove w t (ShiftBuffer.new c) src).world x).CopyCount = 0 ∧
      (getStat (ShiftBuffer.Shove w t (ShiftBuffer.new c) src).world x).DestroyCount = 0 ∧
      (getStat (ShiftBuffer.Shove w t (ShiftBuffer.new c) src).world x).OverwriteCount
        = 0 := by
  have hfit2 : src.length
      ≤ (ShiftBuffer.new c).capacity - (ShiftBuffer.new c).head
          - (ShiftBuffer.new c).items.length := by
    simpa [ShiftBuffer.new, ShiftBuffer.GetCapacity] using hfit
  have hs : ∀ x ∈ src, ctorThrows true w x = false := fun x hx => by
    rw [ctorThrows_true, hfresh x hx]
  rw [ShiftBuffer.Shove, Append_fits_nothrow true w t (ShiftBuffer.new c) src hfit2 hs]
  refine ⟨rfl, by simp [ShiftBuffer.new], by simp [ShiftBuffer.Count, ShiftBuffer.new], ?_⟩
  intro x hx
  refine ⟨?_, ?_, ?_, ?_⟩
  · rw [MoveCount_afterCtors true w src x hv, hfresh x hx,
      occs_of_nodup_mem hnd hx]
    simp
  · rw [CopyCount_afterCtors true w src x hv, hfresh x hx]
    rfl
  · rw [DestroyCount_afterCtors, hfresh x hx]
  · rw [OverwriteCount_afterCtors, hfresh x hx]

/-- C6 (witness): the statement applied to the concrete scenario of
`ShovingInvokesMoveConstructor` (16 fresh items into a capacity-16 buffer). -/
theorem C6_witness :
    (ShiftBuffer.Shove (freshWorld 16) {} (ShiftBuffer.new 16) (List.range 16)).threw
      = false :=
  (C6_shove_accounting (freshWorld 16) {} 16 (List.range 16)
    (by decide) (by decide) (by decide) (by decide)).1

/-- C7: the buffer neither leaks nor double-destroys.  First, after a
successful Write of fresh distinct items followed by the buffer's
destruction, every item's destroy count is exactly 1 (the live window is
destroyed, each element once).  Second, over any lifetime — any trace of
Write/Shove/Read operations on a fresh buffer, throwing or not, followed by
destruction — the total number of copy- and move-constructions the buffer
performed equals the total number of destructions it performed. -/
theorem C7_no_leak_accounting :
    (∀ (w : World) (c : Nat) (src : List Nat),
      src.length ≤ (ShiftBuffer.new c).GetCapacity →
      src.Nodup →
      (∀ x ∈ src, x < w.length) →
      (∀ x ∈ src, getStat w x = {}) →
      ((ShiftBuffer.Write w {} (ShiftBuffer.new c) src).threw = false ∧
       ∀ x ∈ src,
         (getStat (ShiftBuffer.destruct
             (ShiftBuffer.Write w {} (ShiftBuffer.new c) src).world
             (ShiftBuffer.Write w {} (ShiftBuffer.new c) src).tally
             (ShiftBuffer.Write w {} (ShiftBuffer.new c) src).buf).1 x).DestroyCount
           = 1)) ∧
    (∀ (w : World) (c : Nat) (ops : List BufOp),
      (ShiftBuffer.destruct (runOps ⟨w, {}, ShiftBuffer.new c⟩ ops).world
          (runOps ⟨w, {}, ShiftBuffer.new c⟩ ops).tally
          (runOps ⟨w, {}, ShiftBuffer.new c⟩ ops).buf).2.constructions
        = (ShiftBuffer.destruct (runOps ⟨w, {}, ShiftBuffer.new c⟩ ops).world
            (runOps ⟨w, {}, ShiftBuffer.new c⟩ ops).tally
            (runOps ⟨w, {}, ShiftBuffer.new c⟩ ops).buf).2.destructions) := by
  constructor
  · intro w c src hfit hnd hv hfresh
    have hfit2 : src.length
        ≤ (ShiftBuffer.new c).capacity - (ShiftBuffer.new c).head
            - (ShiftBuffer.new c).items.length := by
      simpa [ShiftBuffer.new, ShiftBuffer.GetCapacity] using hfit
    have hs : ∀ x ∈ src, ctorThrows false w x = false := fun x hx => by
      rw [ctorThrows_false, hfresh x hx]
    rw [ShiftBuffer.Write, Append_fits_nothrow false w {} (ShiftBuffer.new c) src hfit2 hs]
    refine ⟨rfl, ?_⟩
    intro x hx
    show (getStat (destroyAll (afterCtors false w src) _
        ((ShiftBuffer.new c).items ++ src)).1 x).DestroyCount = 1
    have hitems : ((ShiftBuffer.new c).items ++ src) = src := by simp [ShiftBuffer.new]
    rw [hitems, DestroyCount_destroyAll _ _ src x (fun y hy => by
      rw [length_afterCtors]; exact hv y hy)]
    rw [DestroyCount_afterCtors, hfresh x hx, occs_of_nodup_mem hnd hx]
  · intro w c ops
    have hbal := runOps_balance ops ⟨w, {}, ShiftBuffer.new c⟩ (by
      simp [ShiftBuffer.Count, ShiftBuffer.new])
    rw [ShiftBuffer.destruct, destroyAll_tally]
    simp only [ShiftBuffer.Count] at hbal
    dsimp only at hbal ⊢
    omega

/-- C7 (witness): the first part applied to the scenario of
`BufferDestroysLeftOverItemsWhenDestroyed`, and the second part applied to a
small concrete trace with one partial Read. -/
theorem C7_witness :
    (ShiftBuffer.Write (freshWorld 16) {} (ShiftBuffer.new 16) (List.range 16)).threw
        = false ∧
    (ShiftBuffer.destruct
        (runOps ⟨freshWorld 4, {}, ShiftBuffer.new 4⟩
          [BufOp.write [0, 1], BufOp.read [2, 3] 1]).world
        (runOps ⟨freshWorld 4, {}, ShiftBuffer.new 4⟩
          [BufOp.write [0, 1], BufOp.read [2, 3] 1]).tally
        (runOps ⟨freshWorld 4, {}, ShiftBuffer.new 4⟩
          [BufOp.write [0, 1], BufOp.read [2, 3] 1]).buf).2.constructions
      = (ShiftBuffer.destruct
          (runOps ⟨freshWorld 4, {}, ShiftBuffer.new 4⟩
            [BufOp.write [0, 1], BufOp.read [2, 3] 1]).world
          (runOps ⟨freshWorld 4, {}, ShiftBuffer.new 4⟩
            [BufOp.write [0, 1], BufOp.read [2, 3] 1]).tally
          (runOps ⟨freshWorld 4, {}, ShiftBuffer.new 4⟩
            [BufOp.write [0, 1], BufOp.read [2, 3] 1]).buf).2.destructions :=
  ⟨(C7_no_leak_accounting.1 (freshWorld 16) 16 (List.range 16)
      (by decide) (by decide) (by decide) (by decide)).1,
   C7_no_leak_accounting.2 (freshWorld 4) 4 [BufOp.write [0, 1], BufOp.read [2, 3] 1]⟩

/-- C8: copying a buffer yields an independent buffer with the same Count and
the same live-window contents; reading everything out of the copy returns
exactly the originally written sequence and empties the copy, while the
source buffer still holds its full contents (same Count and items as before
the copy was made). -/
theorem C8_copy_independent (s : List Nat) (c : Nat) :
    ((PlainBuffer.new Nat c).Write s).copyOf.Count
        = ((PlainBuffer.new Nat c).Write s).Count ∧
    ((PlainBuffer.new Nat c).Write s).copyOf.items
        = ((PlainBuffer.new Nat c).Write s).items ∧
    ((((PlainBuffer.new Nat c).Write s).copyOf).Read
        (((PlainBuffer.new Nat c).Write s).copyOf.Count)).1 = s ∧
    (((((PlainBuffer.new Nat c).Write s).copyOf).Read
        (((PlainBuffer.new Nat c).Write s).copyOf.Count)).2).Count = 0 ∧
    ((PlainBuffer.new Nat c).Write s).items = s ∧
    ((PlainBuffer.new Nat c).Write s).Count = s.length := by
  have hw : ((PlainBuffer.new Nat c).Write s).items = s := by
    rw [items_Write]
    simp [PlainBuffer.new]
  refine ⟨rfl, rfl, ?_, ?_, hw, ?_⟩
  · simp [PlainBuffer.Read, PlainBuffer.copyOf, PlainBuffer.Count, hw]
  · simp [PlainBuffer.Read, PlainBuffer.copyOf, PlainBuffer.Count, hw]
  · simp [PlainBuffer.Count, hw]

end NuclexShiftBuffer
